import Mathlib

/-!
Verification of the camera model and ray-generation/shading pipeline of a
minimal interactive ray tracer.  The development embeds the `Camera` class
(`src/camera.cpp`, `src/camera.h`) and the free functions `hit_sphere`,
`ray_color` and the per-channel quantization of `render_scene`
(`src/main.cpp`) over exact real arithmetic, and proves the stated
invariants and functional properties about them.
-/

namespace RayTracer

open Real

/-- Modelled from the spec: the 3-component real vector/point type of the
missing `vec3.h` header, "a 3-component real-valued tuple used
interchangeably as a free vector or an affine point" with componentwise
add/subtract, scalar multiply/divide, dot product, cross product, length
and length-squared, and unit-normalization. -/
@[ext]
structure Vec3 where
  x : ℝ
  y : ℝ
  z : ℝ

namespace Vec3

/-- Modelled from the spec: componentwise addition of `vec3.h`. -/
def add (a b : Vec3) : Vec3 := ⟨a.x + b.x, a.y + b.y, a.z + b.z⟩

/-- Modelled from the spec: componentwise subtraction of `vec3.h`. -/
def sub (a b : Vec3) : Vec3 := ⟨a.x - b.x, a.y - b.y, a.z - b.z⟩

/-- Modelled from the spec: componentwise negation of `vec3.h`. -/
def neg (a : Vec3) : Vec3 := ⟨-a.x, -a.y, -a.z⟩

/-- Modelled from the spec: scalar multiplication of `vec3.h`. -/
def smul (t : ℝ) (a : Vec3) : Vec3 := ⟨t * a.x, t * a.y, t * a.z⟩

/-- Modelled from the spec: division of a vector by a scalar (`vec3.h`). -/
noncomputable def divScalar (a : Vec3) (t : ℝ) : Vec3 := ⟨a.x / t, a.y / t, a.z / t⟩

instance : Add Vec3 := ⟨add⟩

instance : Sub Vec3 := ⟨sub⟩

instance : Neg Vec3 := ⟨neg⟩

instance : SMul ℝ Vec3 := ⟨smul⟩

@[simp]
theorem add_def (a b : Vec3) : a + b = ⟨a.x + b.x, a.y + b.y, a.z + b.z⟩ := rfl

@[simp]
theorem sub_def (a b : Vec3) : a - b = ⟨a.x - b.x, a.y - b.y, a.z - b.z⟩ := rfl

@[simp]
theorem neg_def (a : Vec3) : -a = ⟨-a.x, -a.y, -a.z⟩ := rfl

@[simp]
theorem smul_def (t : ℝ) (a : Vec3) : t • a = ⟨t * a.x, t * a.y, t * a.z⟩ := rfl

/-- Modelled from the spec: dot product of `vec3.h`. -/
def dot (a b : Vec3) : ℝ := a.x * b.x + a.y * b.y + a.z * b.z

/-- Modelled from the spec: cross product of `vec3.h`. -/
def cross (a b : Vec3) : Vec3 :=
  ⟨a.y * b.z - a.z * b.y, a.z * b.x - a.x * b.z, a.x * b.y - a.y * b.x⟩

/-- Modelled from the spec: `length_squared` of `vec3.h`. -/
def length_squared (a : Vec3) : ℝ := a.x * a.x + a.y * a.y + a.z * a.z

/-- Modelled from the spec: `length` of `vec3.h`, the square root of
`length_squared`. -/
noncomputable def length (a : Vec3) : ℝ := Real.sqrt a.length_squared

/-- Modelled from the spec: `unit_vector(v) = v / v.length()` of `vec3.h`
("fails or produces an undefined result if length is zero"; over the real
embedding division by zero yields the zero vector). -/
noncomputable def unit_vector (a : Vec3) : Vec3 := a.divScalar a.length

end Vec3

open Vec3

/-- Modelled from the spec: the ray of the missing `ray.h`:
`(origin, direction)` with `at(t) = origin + t * direction`. -/
structure Ray where
  origin : Vec3
  direction : Vec3

/-- Modelled from the spec: `ray::at(t) = origin + t * direction`. -/
def Ray.at (r : Ray) (t : ℝ) : Vec3 := r.origin + t • r.direction

/-- `radians` from `src/camera.cpp`: degree-to-radian conversion. -/
noncomputable def radians (degrees : ℝ) : ℝ := degrees * Real.pi / 180

/-- The camera state: every data member of the `Camera` class of
`src/camera.h`, over exact real arithmetic. -/
structure Camera where
  image_width_ : ℤ
  image_height_ : ℤ
  camera_center_ : Vec3
  focal_length_ : ℝ
  yaw_ : ℝ
  pitch_ : ℝ
  front_ : Vec3
  camera_right_ : Vec3
  camera_up_ : Vec3
  world_up_ : Vec3
  viewport_height_ : ℝ
  viewport_width_ : ℝ
  viewport_u_ : Vec3
  viewport_v_ : Vec3
  pixel_delta_u_ : Vec3
  pixel_delta_v_ : Vec3
  viewport_upper_left_ : Vec3
  pixel00_loc_ : Vec3

namespace Camera

/-- `Camera::update_camera_vectors` from `src/camera.cpp`: recomputes the
front/right/up basis from yaw and pitch and all viewport-derived state. -/
noncomputable def update_camera_vectors (c : Camera) : Camera :=
  let yaw_rad := radians c.yaw_
  let pitch_rad := radians c.pitch_
  let front0 : Vec3 :=
    ⟨Real.cos yaw_rad * Real.cos pitch_rad, Real.sin pitch_rad,
     Real.sin yaw_rad * Real.cos pitch_rad⟩
  let front := unit_vector front0
  let camera_right := unit_vector (cross front c.world_up_)
  let camera_up := unit_vector (cross camera_right front)
  let viewport_width :=
    c.viewport_height_ * ((c.image_width_ : ℝ) / (c.image_height_ : ℝ))
  let viewport_u := viewport_width • camera_right
  let viewport_v := c.viewport_height_ • (-camera_up)
  let pixel_delta_u := viewport_u.divScalar (c.image_width_ : ℝ)
  let pixel_delta_v := viewport_v.divScalar (c.image_height_ : ℝ)
  let viewport_center := c.camera_center_ + c.focal_length_ • front
  let viewport_upper_left :=
    viewport_center - viewport_u.divScalar 2 - viewport_v.divScalar 2
  let pixel00_loc :=
    viewport_upper_left + (0.5 : ℝ) • (pixel_delta_u + pixel_delta_v)
  { c with
    front_ := front
    camera_right_ := camera_right
    camera_up_ := camera_up
    viewport_width_ := viewport_width
    viewport_u_ := viewport_u
    viewport_v_ := viewport_v
    pixel_delta_u_ := pixel_delta_u
    pixel_delta_v_ := pixel_delta_v
    viewport_upper_left_ := viewport_upper_left
    pixel00_loc_ := pixel00_loc }

/-- The `Camera::Camera` constructor from `src/camera.cpp`: initializes
yaw to −90, pitch to 0, world-up to (0,1,0), viewport height to 2, the
remaining derived members to their value-initialized defaults, then runs a
full `update_camera_vectors`. -/
noncomputable def construct (image_width image_height : ℤ) (position : Vec3)
    (focal_length : ℝ) : Camera :=
  update_camera_vectors
    { image_width_ := image_width
      image_height_ := image_height
      camera_center_ := position
      focal_length_ := focal_length
      yaw_ := -90
      pitch_ := 0
      front_ := ⟨0, 0, -1⟩
      camera_right_ := ⟨0, 0, 0⟩
      camera_up_ := ⟨0, 0, 0⟩
      world_up_ := ⟨0, 1, 0⟩
      viewport_height_ := 2
      viewport_width_ := 0
      viewport_u_ := ⟨0, 0, 0⟩
      viewport_v_ := ⟨0, 0, 0⟩
      pixel_delta_u_ := ⟨0, 0, 0⟩
      pixel_delta_v_ := ⟨0, 0, 0⟩
      viewport_upper_left_ := ⟨0, 0, 0⟩
      pixel00_loc_ := ⟨0, 0, 0⟩ }

/-- `Camera::get_ray` from `src/camera.cpp`. -/
noncomputable def get_ray (c : Camera) (pixel_x pixel_y : ℤ) : Ray :=
  let pixel_center :=
    c.pixel00_loc_ + (pixel_x : ℝ) • c.pixel_delta_u_ +
      (pixel_y : ℝ) • c.pixel_delta_v_
  let ray_direction := pixel_center - c.camera_center_
  ⟨c.camera_center_, ray_direction⟩

/-- `Camera::move` from `src/camera.cpp`: translate the center, then run a
full recomputation. -/
noncomputable def move (c : Camera) (offset : Vec3) : Camera :=
  update_camera_vectors { c with camera_center_ := c.camera_center_ + offset }

/-- `Camera::rotate` from `src/camera.cpp`: accumulate the deltas, clamp
pitch to [−89, 89] by the two sequential guards, then run a full
recomputation. -/
noncomputable def rotate (c : Camera) (delta_yaw delta_pitch : ℝ) : Camera :=
  let yaw := c.yaw_ + delta_yaw
  let pitch0 := c.pitch_ + delta_pitch
  let pitch1 := if pitch0 > 89 then 89 else pitch0
  let pitch2 := if pitch1 < -89 then -89 else pitch1
  update_camera_vectors { c with yaw_ := yaw, pitch_ := pitch2 }

/-- `Camera::set_position` from `src/camera.cpp`: overwrites the center
and nothing else (no recomputation). -/
def set_position (c : Camera) (position : Vec3) : Camera :=
  { c with camera_center_ := position }

end Camera

/-- The camera states reachable by construction followed by any sequence
of `move` and `rotate` calls. -/
inductive Reached : Camera → Prop where
  | construct (w h : ℤ) (pos : Vec3) (f : ℝ) : Reached (Camera.construct w h pos f)
  | move {c : Camera} (off : Vec3) : Reached c → Reached (c.move off)
  | rotate {c : Camera} (dy dp : ℝ) : Reached c → Reached (c.rotate dy dp)

/-- `hit_sphere` from `src/main.cpp`: the analytic ray–sphere
intersection, returning −1 on a negative discriminant and the near
quadratic root otherwise. -/
noncomputable def hit_sphere (center : Vec3) (radius : ℝ) (r : Ray) : ℝ :=
  let originSphere := r.origin - center
  let a := r.direction.length_squared
  let b := 2 * dot originSphere r.direction
  let c := originSphere.length_squared - radius * radius
  let discriminant := b * b - 4 * a * c
  if discriminant < 0 then -1 else (-b - Real.sqrt discriminant) / (2 * a)

/-- `ray_color` from `src/main.cpp`: normal-visualization shading on a
hit of the fixed sphere (center (0,0,−1), radius 0.5), vertical sky
gradient on a miss. -/
noncomputable def ray_color (r : Ray) : Vec3 :=
  let t := hit_sphere ⟨0, 0, -1⟩ 0.5 r
  if t > 0 then
    let N := unit_vector (r.at t - (⟨0, 0, -1⟩ : Vec3))
    (0.5 : ℝ) • (⟨N.x + 1, N.y + 1, N.z + 1⟩ : Vec3)
  else
    let unit_direction := unit_vector r.direction
    let a := 0.5 * (unit_direction.y + 1)
    (1 - a) • (⟨1, 1, 1⟩ : Vec3) + a • (⟨0.5, 0.7, 1⟩ : Vec3)

/-- The per-channel quantization of `render_scene` in `src/main.cpp`:
`static_cast<unsigned char>(256 * std::clamp(channel, 0.0, 0.999))`.  The
cast truncates toward zero; the clamped product is nonnegative, so the
truncation is the integer floor. -/
noncomputable def quantize_channel (channel : ℝ) : ℤ :=
  ⌊(256 : ℝ) * min (max channel 0) 0.999⌋

/-! Projection lemmas: which fields each operation reads and writes. -/

@[simp]
theorem update_yaw (c : Camera) : c.update_camera_vectors.yaw_ = c.yaw_ := rfl

@[simp]
theorem update_pitch (c : Camera) : c.update_camera_vectors.pitch_ = c.pitch_ := rfl

@[simp]
theorem update_center (c : Camera) :
    c.update_camera_vectors.camera_center_ = c.camera_center_ := rfl

@[simp]
theorem update_world_up (c : Camera) :
    c.update_camera_vectors.world_up_ = c.world_up_ := rfl

@[simp]
theorem construct_pitch (w h : ℤ) (pos : Vec3) (f : ℝ) :
    (Camera.construct w h pos f).pitch_ = 0 := rfl

@[simp]
theorem construct_yaw (w h : ℤ) (pos : Vec3) (f : ℝ) :
    (Camera.construct w h pos f).yaw_ = -90 := rfl

@[simp]
theorem construct_world_up (w h : ℤ) (pos : Vec3) (f : ℝ) :
    (Camera.construct w h pos f).world_up_ = ⟨0, 1, 0⟩ := rfl

@[simp]
theorem move_pitch (c : Camera) (off : Vec3) : (c.move off).pitch_ = c.pitch_ := rfl

@[simp]
theorem move_world_up (c : Camera) (off : Vec3) :
    (c.move off).world_up_ = c.world_up_ := rfl

@[simp]
theorem move_center (c : Camera) (off : Vec3) :
    (c.move off).camera_center_ = c.camera_center_ + off := rfl

@[simp]
theorem rotate_world_up (c : Camera) (dy dp : ℝ) :
    (c.rotate dy dp).world_up_ = c.world_up_ := rfl

theorem rotate_pitch_def (c : Camera) (dy dp : ℝ) :
    (c.rotate dy dp).pitch_ =
      if (if c.pitch_ + dp > 89 then (89 : ℝ) else c.pitch_ + dp) < -89 then -89
      else if c.pitch_ + dp > 89 then (89 : ℝ) else c.pitch_ + dp := rfl

/-- `update_camera_vectors` is idempotent: it reads only fields it does not
write (yaw, pitch, center, world-up, focal length, viewport height, image
size), so running it twice equals running it once. -/
theorem update_update (c : Camera) :
    c.update_camera_vectors.update_camera_vectors = c.update_camera_vectors := rfl

/-- Invariant of all reachable camera states: the world-up reference is
(0,1,0), the pitch is clamped to [−89, 89], and the camera is a fixed
point of `update_camera_vectors` (no derived state is stale). -/
theorem reached_inv {c : Camera} (h : Reached c) :
    c.world_up_ = ⟨0, 1, 0⟩ ∧ -89 ≤ c.pitch_ ∧ c.pitch_ ≤ 89 ∧
      c.update_camera_vectors = c := by
  induction h with
  | construct w h pos f =>
    exact ⟨rfl, by norm_num, by norm_num, update_update _⟩
  | move off _ ih =>
    exact ⟨ih.1, ih.2.1, ih.2.2.1, update_update _⟩
  | rotate dy dp _ ih =>
    refine ⟨ih.1, ?_, ?_, update_update _⟩
    · rw [rotate_pitch_def]
      split_ifs <;> linarith
    · rw [rotate_pitch_def]
      split_ifs <;> linarith

/-- If the center of a camera is overwritten and the derived state then
recomputed, the recomputed `pixel00_loc_` is the old recomputed one
translated by the change of center: every other input of the viewport
computation is unchanged. -/
theorem update_overwrite_center_pixel00 (c : Camera) (q : Vec3) :
    (Camera.update_camera_vectors { c with camera_center_ := q }).pixel00_loc_ =
      c.update_camera_vectors.pixel00_loc_ - c.camera_center_ + q := by
  show (({ c with camera_center_ := q } : Camera).camera_center_ +
      c.focal_length_ • c.update_camera_vectors.front_ -
      c.update_camera_vectors.viewport_u_.divScalar 2 -
      c.update_camera_vectors.viewport_v_.divScalar 2 +
      (0.5 : ℝ) • (c.update_camera_vectors.pixel_delta_u_ +
        c.update_camera_vectors.pixel_delta_v_)) =
    (c.camera_center_ + c.focal_length_ • c.update_camera_vectors.front_ -
      c.update_camera_vectors.viewport_u_.divScalar 2 -
      c.update_camera_vectors.viewport_v_.divScalar 2 +
      (0.5 : ℝ) • (c.update_camera_vectors.pixel_delta_u_ +
        c.update_camera_vectors.pixel_delta_v_)) - c.camera_center_ + q
  ext <;> simp [Vec3.divScalar] <;> ring

/-- Claim theorem C2: pitch stays in [−89, 89] after every `rotate` (from
any camera state, hence along any call sequence from the default pitch 0),
and one `rotate(0, 200)` from a freshly constructed camera leaves the
pitch at exactly 89. -/
theorem rotate_pitch_clamped :
    (∀ (c : Camera) (dy dp : ℝ),
      -89 ≤ (c.rotate dy dp).pitch_ ∧ (c.rotate dy dp).pitch_ ≤ 89) ∧
    ((Camera.construct 1280 720 ⟨0, 0, 0⟩ 1).rotate 0 200).pitch_ = 89 := by
  constructor
  · intro c dy dp
    rw [rotate_pitch_def]
    constructor <;> (split_ifs <;> linarith)
  · rw [rotate_pitch_def, construct_pitch]
    norm_num

/-- The squared length of a nonzero vector is strictly positive. -/
theorem length_squared_pos {v : Vec3} (h : v ≠ ⟨0, 0, 0⟩) :
    0 < v.length_squared := by
  rcases lt_or_eq_of_le
      (add_nonneg (add_nonneg (mul_self_nonneg v.x) (mul_self_nonneg v.y))
        (mul_self_nonneg v.z)) with hlt | heq
  · exact hlt
  · exact absurd (by
      have hx : v.x * v.x = 0 :=
        le_antisymm (by nlinarith [mul_self_nonneg v.y, mul_self_nonneg v.z])
          (mul_self_nonneg v.x)
      have hy : v.y * v.y = 0 :=
        le_antisymm (by nlinarith [mul_self_nonneg v.x, mul_self_nonneg v.z])
          (mul_self_nonneg v.y)
      have hz : v.z * v.z = 0 :=
        le_antisymm (by nlinarith [mul_self_nonneg v.x, mul_self_nonneg v.y])
          (mul_self_nonneg v.z)
      exact Vec3.ext (mul_self_eq_zero.mp hx) (mul_self_eq_zero.mp hy)
        (mul_self_eq_zero.mp hz)) h

/-- Claim theorem C3: `hit_sphere` forms the quadratic coefficients
`a = |d|²`, `b = 2 (o·d)`, `c = |o|² − r²` and the discriminant `b² − 4ac`,
returns the −1 sentinel exactly when the discriminant is negative,
otherwise returns exactly the near root `(−b − √disc) / (2a)`, and for a
nonzero direction and positive discriminant never returns the far root. -/
theorem hit_sphere_near_root (center : Vec3) (radius : ℝ) (r : Ray)
    (hdir : r.direction ≠ ⟨0, 0, 0⟩) :
    (r.direction.length_squared *
        ((r.origin - center).length_squared - radius * radius) * 4 >
        (2 * dot (r.origin - center) r.direction) *
          (2 * dot (r.origin - center) r.direction) →
      hit_sphere center radius r = -1) ∧
    ((2 * dot (r.origin - center) r.direction) *
        (2 * dot (r.origin - center) r.direction) -
        4 * r.direction.length_squared *
          ((r.origin - center).length_squared - radius * radius) ≥ 0 →
      hit_sphere center radius r =
        (-(2 * dot (r.origin - center) r.direction) -
          Real.sqrt ((2 * dot (r.origin - center) r.direction) *
            (2 * dot (r.origin - center) r.direction) -
            4 * r.direction.length_squared *
              ((r.origin - center).length_squared - radius * radius))) /
          (2 * r.direction.length_squared)) ∧
    ((2 * dot (r.origin - center) r.direction) *
        (2 * dot (r.origin - center) r.direction) -
        4 * r.direction.length_squared *
          ((r.origin - center).length_squared - radius * radius) > 0 →
      hit_sphere center radius r ≠
        (-(2 * dot (r.origin - center) r.direction) +
          Real.sqrt ((2 * dot (r.origin - center) r.direction) *
            (2 * dot (r.origin - center) r.direction) -
            4 * r.direction.length_squared *
              ((r.origin - center).length_squared - radius * radius))) /
          (2 * r.direction.length_squared)) := by
  have ha : 0 < r.direction.length_squared := length_squared_pos hdir
  refine ⟨?_, ?_, ?_⟩
  · intro hneg
    rw [hit_sphere]
    rw [if_pos (by linarith)]
  · intro hpos
    rw [hit_sphere]
    rw [if_neg (by push_neg; linarith)]
  · intro hpos
    rw [hit_sphere]
    rw [if_neg (by push_neg; linarith)]
    intro heq
    have hs : 0 < Real.sqrt
        ((2 * dot (r.origin - center) r.direction) *
          (2 * dot (r.origin - center) r.direction) -
          4 * r.direction.length_squared *
            ((r.origin - center).length_squared - radius * radius)) :=
      Real.sqrt_pos.mpr hpos
    have h2a : (2 * r.direction.length_squared) ≠ 0 := by positivity
    rw [div_eq_div_iff h2a h2a] at heq
    nlinarith

/-- Claim theorem C4: `get_ray` returns the ray whose origin is the camera
center and whose direction is `pixel00_loc + x·Δu + y·Δv − center`, for
every integer pixel pair, in and out of the image bounds alike; it is a
pure function of the camera state. -/
theorem get_ray_formula (c : Camera) (px py : ℤ) :
    c.get_ray px py =
      ⟨c.camera_center_,
        c.pixel00_loc_ + (px : ℝ) • c.pixel_delta_u_ +
          (py : ℝ) • c.pixel_delta_v_ - c.camera_center_⟩ := rfl

/-- Claim theorem C5: `set_position` overwrites the center and nothing
else — yaw, pitch, the basis vectors and all viewport-derived state keep
their previous values — and on a reachable camera this leaves
`pixel00_loc_` stale relative to any genuinely new position: recomputing
the derived state from the overwritten camera would give a different
`pixel00_loc_`. -/
theorem set_position_overwrites_center_only (c : Camera) (p : Vec3) :
    ((c.set_position p).camera_center_ = p ∧
      (c.set_position p).yaw_ = c.yaw_ ∧
      (c.set_position p).pitch_ = c.pitch_ ∧
      (c.set_position p).front_ = c.front_ ∧
      (c.set_position p).camera_right_ = c.camera_right_ ∧
      (c.set_position p).camera_up_ = c.camera_up_ ∧
      (c.set_position p).pixel_delta_u_ = c.pixel_delta_u_ ∧
      (c.set_position p).pixel_delta_v_ = c.pixel_delta_v_ ∧
      (c.set_position p).pixel00_loc_ = c.pixel00_loc_) ∧
    (Reached c → p ≠ c.camera_center_ →
      (c.set_position p).pixel00_loc_ ≠
        (c.set_position p).update_camera_vectors.pixel00_loc_) := by
  refine ⟨⟨rfl, rfl, rfl, rfl, rfl, rfl, rfl, rfl, rfl⟩, ?_⟩
  intro hr hp heq
  have hfix := (reached_inv hr).2.2.2
  have hshift := update_overwrite_center_pixel00 c p
  have h1 : (c.set_position p).pixel00_loc_ = c.pixel00_loc_ := rfl
  have h2 : (c.set_position p).update_camera_vectors.pixel00_loc_ =
      c.update_camera_vectors.pixel00_loc_ - c.camera_center_ + p := hshift
  rw [h1, h2, hfix] at heq
  apply hp
  have hx := congrArg Vec3.x heq
  have hy := congrArg Vec3.y heq
  have hz := congrArg Vec3.z heq
  simp at hx hy hz
  ext <;> linarith

/-- Claim theorem C9: the quantized framebuffer byte is the truncation of
`256 * clamp(channel, 0, 0.999)` (clamp before scale), always lies in
[0, 255] — in particular 256 is never produced — and equals exactly 255
for every channel value at least 1. -/
theorem quantize_channel_spec (channel : ℝ) :
    quantize_channel channel = ⌊(256 : ℝ) * min (max channel 0) 0.999⌋ ∧
    0 ≤ quantize_channel channel ∧ quantize_channel channel ≤ 255 ∧
    quantize_channel channel ≠ 256 ∧
    (1 ≤ channel → quantize_channel channel = 255) := by
  have hle : (256 : ℝ) * min (max channel 0) 0.999 ≤ 255.744 := by
    have : min (max channel 0) 0.999 ≤ 0.999 := min_le_right _ _
    nlinarith
  have hge : (0 : ℝ) ≤ (256 : ℝ) * min (max channel 0) 0.999 := by
    have h0 : (0 : ℝ) ≤ max channel 0 := le_max_right _ _
    have : (0 : ℝ) ≤ min (max channel 0) 0.999 := le_min h0 (by norm_num)
    nlinarith
  have hub : quantize_channel channel ≤ 255 := by
    rw [quantize_channel]
    have := Int.floor_le_floor hle
    have h255 : (⌊(255.744 : ℝ)⌋ : ℤ) = 255 := by
      rw [Int.floor_eq_iff]
      norm_num
    omega
  refine ⟨rfl, Int.floor_nonneg.mpr hge, hub, by omega, ?_⟩
  intro h1
  have hmax : max channel 0 = channel := max_eq_left (by linarith)
  have hmin : min (max channel 0) 0.999 = 0.999 := by
    rw [hmax]
    exact min_eq_right (by linarith)
  rw [quantize_channel, hmin]
  rw [Int.floor_eq_iff]
  norm_num

/-! The orthonormal-basis analysis of `update_camera_vectors`. -/

/-- A pitch in the clamped range [−89, 89] degrees converts to a radian
angle in (−π/2, π/2), where the cosine is strictly positive. -/
theorem cos_radians_pos {p : ℝ} (h1 : -89 ≤ p) (h2 : p ≤ 89) :
    0 < Real.cos (radians p) := by
  apply Real.cos_pos_of_mem_Ioo
  rw [Set.mem_Ioo]
  unfold radians
  constructor
  · have h := mul_nonneg (show (0 : ℝ) ≤ p + 89 by linarith) Real.pi_pos.le
    have hpi := Real.pi_pos
    nlinarith
  · have h := mul_nonneg (show (0 : ℝ) ≤ 89 - p by linarith) Real.pi_pos.le
    have hpi := Real.pi_pos
    nlinarith

/-- The spherical-coordinate front vector has unit squared length. -/
theorem length_squared_front0 (y p : ℝ) :
    Vec3.length_squared
      ⟨Real.cos y * Real.cos p, Real.sin p, Real.sin y * Real.cos p⟩ = 1 := by
  show (Real.cos y * Real.cos p) * (Real.cos y * Real.cos p) +
      Real.sin p * Real.sin p +
      (Real.sin y * Real.cos p) * (Real.sin y * Real.cos p) = 1
  linear_combination (Real.cos p * Real.cos p) * Real.sin_sq_add_cos_sq y +
    Real.sin_sq_add_cos_sq p

theorem length_eq_one_of_sq {v : Vec3} (h : v.length_squared = 1) :
    v.length = 1 := by
  rw [Vec3.length, h, Real.sqrt_one]

theorem unit_vector_of_length_one {v : Vec3} (h : v.length = 1) :
    unit_vector v = v := by
  unfold Vec3.unit_vector
  rw [h]
  ext <;> simp [Vec3.divScalar]

/-- Cross product of the front vector with the world-up reference. -/
theorem cross_front0_world_up (y p : ℝ) :
    cross (⟨Real.cos y * Real.cos p, Real.sin p, Real.sin y * Real.cos p⟩ : Vec3)
        ⟨0, 1, 0⟩ =
      ⟨-(Real.sin y * Real.cos p), 0, Real.cos y * Real.cos p⟩ := by
  ext
  · show Real.sin p * 0 - Real.sin y * Real.cos p * 1 = -(Real.sin y * Real.cos p)
    ring
  · show Real.sin y * Real.cos p * 0 - Real.cos y * Real.cos p * 0 = 0
    ring
  · show Real.cos y * Real.cos p * 1 - Real.sin p * 0 = Real.cos y * Real.cos p
    ring

/-- The length of that cross product is exactly `cos pitch`. -/
theorem length_cross_front0 (y p : ℝ) (hcp : 0 ≤ Real.cos p) :
    Vec3.length ⟨-(Real.sin y * Real.cos p), 0, Real.cos y * Real.cos p⟩ =
      Real.cos p := by
  have hsq : Vec3.length_squared
      ⟨-(Real.sin y * Real.cos p), 0, Real.cos y * Real.cos p⟩ =
      Real.cos p * Real.cos p := by
    show (-(Real.sin y * Real.cos p)) * (-(Real.sin y * Real.cos p)) + 0 * 0 +
        (Real.cos y * Real.cos p) * (Real.cos y * Real.cos p) =
        Real.cos p * Real.cos p
    linear_combination (Real.cos p * Real.cos p) * Real.sin_sq_add_cos_sq y
  rw [Vec3.length, hsq, Real.sqrt_mul_self hcp]

/-- Closed forms of the three basis vectors computed by
`update_camera_vectors` when the world-up reference is (0,1,0) and the
pitch is in the clamped range. -/
theorem update_basis_formula (c : Camera) (hup : c.world_up_ = ⟨0, 1, 0⟩)
    (h1 : -89 ≤ c.pitch_) (h2 : c.pitch_ ≤ 89) :
    c.update_camera_vectors.front_ =
      ⟨Real.cos (radians c.yaw_) * Real.cos (radians c.pitch_),
        Real.sin (radians c.pitch_),
        Real.sin (radians c.yaw_) * Real.cos (radians c.pitch_)⟩ ∧
    c.update_camera_vectors.camera_right_ =
      ⟨-Real.sin (radians c.yaw_), 0, Real.cos (radians c.yaw_)⟩ ∧
    c.update_camera_vectors.camera_up_ =
      ⟨-(Real.cos (radians c.yaw_) * Real.sin (radians c.pitch_)),
        Real.cos (radians c.pitch_),
        -(Real.sin (radians c.yaw_) * Real.sin (radians c.pitch_))⟩ := by
  have hcp : 0 < Real.cos (radians c.pitch_) := cos_radians_pos h1 h2
  have hfront0 := length_squared_front0 (radians c.yaw_) (radians c.pitch_)
  have hfront : c.update_camera_vectors.front_ =
      ⟨Real.cos (radians c.yaw_) * Real.cos (radians c.pitch_),
        Real.sin (radians c.pitch_),
        Real.sin (radians c.yaw_) * Real.cos (radians c.pitch_)⟩ := by
    have e : c.update_camera_vectors.front_ =
        unit_vector ⟨Real.cos (radians c.yaw_) * Real.cos (radians c.pitch_),
          Real.sin (radians c.pitch_),
          Real.sin (radians c.yaw_) * Real.cos (radians c.pitch_)⟩ := rfl
    rw [e]
    exact unit_vector_of_length_one (length_eq_one_of_sq hfront0)
  have hright : c.update_camera_vectors.camera_right_ =
      ⟨-Real.sin (radians c.yaw_), 0, Real.cos (radians c.yaw_)⟩ := by
    have e : c.update_camera_vectors.camera_right_ =
        unit_vector (cross c.update_camera_vectors.front_ c.world_up_) := rfl
    rw [e, hfront, hup, cross_front0_world_up]
    unfold Vec3.unit_vector
    rw [length_cross_front0 _ _ hcp.le]
    ext <;> simp [Vec3.divScalar] <;> field_simp
  have hcross2 : cross (⟨-Real.sin (radians c.yaw_), 0,
        Real.cos (radians c.yaw_)⟩ : Vec3)
      ⟨Real.cos (radians c.yaw_) * Real.cos (radians c.pitch_),
        Real.sin (radians c.pitch_),
        Real.sin (radians c.yaw_) * Real.cos (radians c.pitch_)⟩ =
      ⟨-(Real.cos (radians c.yaw_) * Real.sin (radians c.pitch_)),
        Real.cos (radians c.pitch_),
        -(Real.sin (radians c.yaw_) * Real.sin (radians c.pitch_))⟩ := by
    ext
    · show 0 * (Real.sin (radians c.yaw_) * Real.cos (radians c.pitch_)) -
          Real.cos (radians c.yaw_) * Real.sin (radians c.pitch_) =
          -(Real.cos (radians c.yaw_) * Real.sin (radians c.pitch_))
      ring
    · show Real.cos (radians c.yaw_) *
          (Real.cos (radians c.yaw_) * Real.cos (radians c.pitch_)) -
          -Real.sin (radians c.yaw_) *
            (Real.sin (radians c.yaw_) * Real.cos (radians c.pitch_)) =
          Real.cos (radians c.pitch_)
      linear_combination Real.cos (radians c.pitch_) *
        Real.sin_sq_add_cos_sq (radians c.yaw_)
    · show -Real.sin (radians c.yaw_) * Real.sin (radians c.pitch_) -
          0 * (Real.cos (radians c.yaw_) * Real.cos (radians c.pitch_)) =
          -(Real.sin (radians c.yaw_) * Real.sin (radians c.pitch_))
      ring
  have hupsq : Vec3.length_squared
      ⟨-(Real.cos (radians c.yaw_) * Real.sin (radians c.pitch_)),
        Real.cos (radians c.pitch_),
        -(Real.sin (radians c.yaw_) * Real.sin (radians c.pitch_))⟩ = 1 := by
    show (-(Real.cos (radians c.yaw_) * Real.sin (radians c.pitch_))) *
        (-(Real.cos (radians c.yaw_) * Real.sin (radians c.pitch_))) +
        Real.cos (radians c.pitch_) * Real.cos (radians c.pitch_) +
        (-(Real.sin (radians c.yaw_) * Real.sin (radians c.pitch_))) *
          (-(Real.sin (radians c.yaw_) * Real.sin (radians c.pitch_))) = 1
    linear_combination (Real.sin (radians c.pitch_) * Real.sin (radians c.pitch_)) *
      Real.sin_sq_add_cos_sq (radians c.yaw_) +
      Real.sin_sq_add_cos_sq (radians c.pitch_)
  have hupv : c.update_camera_vectors.camera_up_ =
      ⟨-(Real.cos (radians c.yaw_) * Real.sin (radians c.pitch_)),
        Real.cos (radians c.pitch_),
        -(Real.sin (radians c.yaw_) * Real.sin (radians c.pitch_))⟩ := by
    have e : c.update_camera_vectors.camera_up_ =
        unit_vector (cross c.update_camera_vectors.camera_right_
          c.update_camera_vectors.front_) := rfl
    rw [e, hright, hfront, hcross2]
    exact unit_vector_of_length_one (length_eq_one_of_sq hupsq)
  exact ⟨hfront, hright, hupv⟩

/-- Claim theorem C1: along every sequence of constructions, moves and
rotates, the three basis vectors are pairwise orthogonal unit vectors once
the mutation completes. -/
theorem reached_basis_orthonormal (c : Camera) (h : Reached c) :
    dot c.front_ c.camera_right_ = 0 ∧ dot c.front_ c.camera_up_ = 0 ∧
    dot c.camera_right_ c.camera_up_ = 0 ∧
    c.front_.length = 1 ∧ c.camera_right_.length = 1 ∧
    c.camera_up_.length = 1 := by
  obtain ⟨hup, h1, h2, hfix⟩ := reached_inv h
  obtain ⟨hf, hr, hu⟩ := update_basis_formula c hup h1 h2
  rw [hfix] at hf hr hu
  rw [hf, hr, hu]
  have hy := Real.sin_sq_add_cos_sq (radians c.yaw_)
  have hp := Real.sin_sq_add_cos_sq (radians c.pitch_)
  refine ⟨?_, ?_, ?_, ?_, ?_, ?_⟩
  · show (Real.cos (radians c.yaw_) * Real.cos (radians c.pitch_)) *
        (-Real.sin (radians c.yaw_)) + Real.sin (radians c.pitch_) * 0 +
        (Real.sin (radians c.yaw_) * Real.cos (radians c.pitch_)) *
          Real.cos (radians c.yaw_) = 0
    ring
  · show (Real.cos (radians c.yaw_) * Real.cos (radians c.pitch_)) *
        (-(Real.cos (radians c.yaw_) * Real.sin (radians c.pitch_))) +
        Real.sin (radians c.pitch_) * Real.cos (radians c.pitch_) +
        (Real.sin (radians c.yaw_) * Real.cos (radians c.pitch_)) *
          (-(Real.sin (radians c.yaw_) * Real.sin (radians c.pitch_))) = 0
    linear_combination (-(Real.cos (radians c.pitch_) *
      Real.sin (radians c.pitch_))) * hy
  · show (-Real.sin (radians c.yaw_)) *
        (-(Real.cos (radians c.yaw_) * Real.sin (radians c.pitch_))) +
        0 * Real.cos (radians c.pitch_) +
        Real.cos (radians c.yaw_) *
          (-(Real.sin (radians c.yaw_) * Real.sin (radians c.pitch_))) = 0
    ring
  · exact length_eq_one_of_sq
      (length_squared_front0 (radians c.yaw_) (radians c.pitch_))
  · apply length_eq_one_of_sq
    show (-Real.sin (radians c.yaw_)) * (-Real.sin (radians c.yaw_)) + 0 * 0 +
        Real.cos (radians c.yaw_) * Real.cos (radians c.yaw_) = 1
    linear_combination hy
  · apply length_eq_one_of_sq
    show (-(Real.cos (radians c.yaw_) * Real.sin (radians c.pitch_))) *
        (-(Real.cos (radians c.yaw_) * Real.sin (radians c.pitch_))) +
        Real.cos (radians c.pitch_) * Real.cos (radians c.pitch_) +
        (-(Real.sin (radians c.yaw_) * Real.sin (radians c.pitch_))) *
          (-(Real.sin (radians c.yaw_) * Real.sin (radians c.pitch_))) = 1
    linear_combination (Real.sin (radians c.pitch_) *
      Real.sin (radians c.pitch_)) * hy + hp

/-- Witness for C1 at the freshly constructed 1280×720 camera. -/
theorem reached_basis_orthonormal_witness :
    Reached (Camera.construct 1280 720 ⟨0, 0, 0⟩ 1) ∧
    (dot (Camera.construct 1280 720 ⟨0, 0, 0⟩ 1).front_
        (Camera.construct 1280 720 ⟨0, 0, 0⟩ 1).camera_right_ = 0 ∧
      dot (Camera.construct 1280 720 ⟨0, 0, 0⟩ 1).front_
        (Camera.construct 1280 720 ⟨0, 0, 0⟩ 1).camera_up_ = 0 ∧
      dot (Camera.construct 1280 720 ⟨0, 0, 0⟩ 1).camera_right_
        (Camera.construct 1280 720 ⟨0, 0, 0⟩ 1).camera_up_ = 0 ∧
      (Camera.construct 1280 720 ⟨0, 0, 0⟩ 1).front_.length = 1 ∧
      (Camera.construct 1280 720 ⟨0, 0, 0⟩ 1).camera_right_.length = 1 ∧
      (Camera.construct 1280 720 ⟨0, 0, 0⟩ 1).camera_up_.length = 1) :=
  ⟨Reached.construct 1280 720 ⟨0, 0, 0⟩ 1,
    reached_basis_orthonormal _ (Reached.construct 1280 720 ⟨0, 0, 0⟩ 1)⟩

/-- Claim theorem C8: for a clamped pitch the forward vector's vertical
component stays strictly below 1 in magnitude, so the cross product with
world-up is never the zero vector and its length is never zero (the
normalization of the right vector never divides by zero). -/
theorem clamp_prevents_degenerate_cross (c : Camera)
    (hup : c.world_up_ = ⟨0, 1, 0⟩) (h1 : -89 ≤ c.pitch_) (h2 : c.pitch_ ≤ 89) :
    |dot c.update_camera_vectors.front_ c.world_up_| < 1 ∧
    cross c.update_camera_vectors.front_ c.world_up_ ≠ ⟨0, 0, 0⟩ ∧
    (cross c.update_camera_vectors.front_ c.world_up_).length ≠ 0 := by
  obtain ⟨hf, -, -⟩ := update_basis_formula c hup h1 h2
  have hcp : 0 < Real.cos (radians c.pitch_) := cos_radians_pos h1 h2
  have hy := Real.sin_sq_add_cos_sq (radians c.yaw_)
  have hp := Real.sin_sq_add_cos_sq (radians c.pitch_)
  rw [hf, hup]
  have hdot : dot (⟨Real.cos (radians c.yaw_) * Real.cos (radians c.pitch_),
      Real.sin (radians c.pitch_),
      Real.sin (radians c.yaw_) * Real.cos (radians c.pitch_)⟩ : Vec3)
      ⟨0, 1, 0⟩ = Real.sin (radians c.pitch_) := by
    show (Real.cos (radians c.yaw_) * Real.cos (radians c.pitch_)) * 0 +
        Real.sin (radians c.pitch_) * 1 +
        (Real.sin (radians c.yaw_) * Real.cos (radians c.pitch_)) * 0 =
        Real.sin (radians c.pitch_)
    ring
  have hsin2 : Real.sin (radians c.pitch_) * Real.sin (radians c.pitch_) < 1 := by
    nlinarith
  refine ⟨?_, ?_, ?_⟩
  · rw [hdot]
    rw [abs_lt]
    constructor
    · nlinarith [sq_nonneg (Real.sin (radians c.pitch_) + 1)]
    · nlinarith [sq_nonneg (Real.sin (radians c.pitch_) - 1)]
  · rw [cross_front0_world_up]
    intro heq
    have hx := congrArg Vec3.x heq
    have hz := congrArg Vec3.z heq
    simp at hx hz
    have hsy : Real.sin (radians c.yaw_) = 0 := by
      rcases hx with h | h
      · exact h
      · exact absurd h hcp.ne'
    have hcy : Real.cos (radians c.yaw_) = 0 := by
      rcases hz with h | h
      · exact h
      · exact absurd h hcp.ne'
    rw [hsy, hcy] at hy
    norm_num at hy
  · rw [cross_front0_world_up, length_cross_front0 _ _ hcp.le]
    exact hcp.ne'

/-- Witness for C8 at the freshly constructed camera (pitch 0). -/
theorem clamp_prevents_degenerate_cross_witness :
    (Camera.construct 1280 720 ⟨0, 0, 0⟩ 1).world_up_ = ⟨0, 1, 0⟩ ∧
    -89 ≤ (Camera.construct 1280 720 ⟨0, 0, 0⟩ 1).pitch_ ∧
    (Camera.construct 1280 720 ⟨0, 0, 0⟩ 1).pitch_ ≤ 89 ∧
    (|dot (Camera.construct 1280 720 ⟨0, 0, 0⟩ 1).update_camera_vectors.front_
        (Camera.construct 1280 720 ⟨0, 0, 0⟩ 1).world_up_| < 1 ∧
      cross (Camera.construct 1280 720 ⟨0, 0, 0⟩ 1).update_camera_vectors.front_
        (Camera.construct 1280 720 ⟨0, 0, 0⟩ 1).world_up_ ≠ ⟨0, 0, 0⟩ ∧
      (cross (Camera.construct 1280 720 ⟨0, 0, 0⟩ 1).update_camera_vectors.front_
        (Camera.construct 1280 720 ⟨0, 0, 0⟩ 1).world_up_).length ≠ 0) :=
  ⟨rfl, by rw [construct_pitch]; norm_num, by rw [construct_pitch]; norm_num,
    clamp_prevents_degenerate_cross _ rfl
      (by rw [construct_pitch]; norm_num) (by rw [construct_pitch]; norm_num)⟩

/-! Ray–sphere shading: rays starting inside the sphere, and Scenario A. -/

/-- When the constant coefficient of the quadratic is negative (origin
strictly inside the sphere) the discriminant is nonnegative. -/
theorem disc_nonneg_of_c_neg {a b cc : ℝ} (ha : 0 < a) (hc : cc < 0) :
    0 ≤ b * b - 4 * a * cc := by
  nlinarith [mul_self_nonneg b]

/-- When the constant coefficient of the quadratic is negative, the near
root is strictly negative. -/
theorem near_root_neg {a b cc : ℝ} (ha : 0 < a) (hc : cc < 0) :
    (-b - Real.sqrt (b * b - 4 * a * cc)) / (2 * a) < 0 := by
  have hD : b * b < b * b - 4 * a * cc := by nlinarith
  have hsqrt : -b < Real.sqrt (b * b - 4 * a * cc) := by
    rcases lt_or_le (-b) 0 with hb | hb
    · exact lt_of_lt_of_le hb (Real.sqrt_nonneg _)
    · rw [Real.lt_sqrt hb]
      nlinarith
  apply div_neg_of_neg_of_pos
  · linarith
  · linarith

/-- `ray_color` on a miss (`t ≤ 0` test fails) is the sky gradient. -/
theorem ray_color_miss {r : Ray} (ht : ¬ hit_sphere ⟨0, 0, -1⟩ 0.5 r > 0) :
    ray_color r =
      (1 - 0.5 * ((unit_vector r.direction).y + 1)) • (⟨1, 1, 1⟩ : Vec3) +
        (0.5 * ((unit_vector r.direction).y + 1)) • (⟨0.5, 0.7, 1⟩ : Vec3) := by
  simp only [ray_color]
  rw [if_neg ht]

/-- Claim theorem C6: a ray whose origin is strictly inside the fixed
sphere (|origin − center| < 0.5) with nonzero direction takes the miss
branch of `ray_color` and gets the sky gradient: the near root is
negative, so the `t > 0` test fails. -/
theorem inside_sphere_misses (r : Ray) (hdir : r.direction ≠ ⟨0, 0, 0⟩)
    (hin : (r.origin - ⟨0, 0, -1⟩).length < 0.5) :
    ray_color r =
      (1 - 0.5 * ((unit_vector r.direction).y + 1)) • (⟨1, 1, 1⟩ : Vec3) +
        (0.5 * ((unit_vector r.direction).y + 1)) • (⟨0.5, 0.7, 1⟩ : Vec3) := by
  have ha : 0 < r.direction.length_squared := length_squared_pos hdir
  have ho : 0 ≤ (r.origin - (⟨0, 0, -1⟩ : Vec3)).length_squared :=
    add_nonneg (add_nonneg (mul_self_nonneg _) (mul_self_nonneg _))
      (mul_self_nonneg _)
  have hlsq : (r.origin - (⟨0, 0, -1⟩ : Vec3)).length_squared < 0.25 := by
    rw [Vec3.length] at hin
    nlinarith [Real.sq_sqrt ho,
      Real.sqrt_nonneg (r.origin - (⟨0, 0, -1⟩ : Vec3)).length_squared]
  have hcc : (r.origin - (⟨0, 0, -1⟩ : Vec3)).length_squared -
      (0.5 : ℝ) * 0.5 < 0 := by
    have h025 : (0.5 : ℝ) * 0.5 = 0.25 := by norm_num
    linarith
  apply ray_color_miss
  simp only [hit_sphere]
  rw [if_neg (not_lt.mpr (disc_nonneg_of_c_neg ha hcc))]
  exact not_lt.mpr (le_of_lt (near_root_neg ha hcc))

/-- Witness for C6: a ray starting at the sphere's center. -/
theorem inside_sphere_misses_witness :
    ((⟨⟨0, 0, -1⟩, ⟨0, 0, -1⟩⟩ : Ray).direction ≠ ⟨0, 0, 0⟩) ∧
    (((⟨⟨0, 0, -1⟩, ⟨0, 0, -1⟩⟩ : Ray).origin - ⟨0, 0, -1⟩).length < 0.5) ∧
    ray_color ⟨⟨0, 0, -1⟩, ⟨0, 0, -1⟩⟩ =
      (1 - 0.5 * ((unit_vector (⟨⟨0, 0, -1⟩, ⟨0, 0, -1⟩⟩ : Ray).direction).y + 1)) •
          (⟨1, 1, 1⟩ : Vec3) +
        (0.5 * ((unit_vector (⟨⟨0, 0, -1⟩, ⟨0, 0, -1⟩⟩ : Ray).direction).y + 1)) •
          (⟨0.5, 0.7, 1⟩ : Vec3) :=
  ⟨by intro h; exact absurd (congrArg Vec3.z h) (by norm_num),
    by
      show Vec3.length ((⟨0, 0, -1⟩ : Vec3) - ⟨0, 0, -1⟩) < 0.5
      have e : (⟨0, 0, -1⟩ : Vec3) - ⟨0, 0, -1⟩ = ⟨0, 0, 0⟩ := by
        ext <;> norm_num
      rw [e, Vec3.length]
      have e2 : Vec3.length_squared ⟨0, 0, 0⟩ = 0 := by
        show (0 : ℝ) * 0 + 0 * 0 + 0 * 0 = 0
        ring
      rw [e2, Real.sqrt_zero]
      norm_num,
    inside_sphere_misses ⟨⟨0, 0, -1⟩, ⟨0, 0, -1⟩⟩
      (by intro h; exact absurd (congrArg Vec3.z h) (by norm_num))
      (by
        show Vec3.length ((⟨0, 0, -1⟩ : Vec3) - ⟨0, 0, -1⟩) < 0.5
        have e : (⟨0, 0, -1⟩ : Vec3) - ⟨0, 0, -1⟩ = ⟨0, 0, 0⟩ := by
          ext <;> norm_num
        rw [e, Vec3.length]
        have e2 : Vec3.length_squared ⟨0, 0, 0⟩ = 0 := by
          show (0 : ℝ) * 0 + 0 * 0 + 0 * 0 = 0
          ring
        rw [e2, Real.sqrt_zero]
        norm_num)⟩

/-- Scenario A intersection: `hit_sphere` at the canonical ray is 1/2. -/
theorem hit_sphere_scenario_a :
    hit_sphere ⟨0, 0, -1⟩ 0.5 ⟨⟨0, 0, 0⟩, ⟨0, 0, -1⟩⟩ = 0.5 := by
  have h1 : (⟨0, 0, 0⟩ : Vec3) - ⟨0, 0, -1⟩ = ⟨0, 0, 1⟩ := by ext <;> norm_num
  have h2 : dot (⟨0, 0, 1⟩ : Vec3) ⟨0, 0, -1⟩ = -1 := by
    show (0 : ℝ) * 0 + 0 * 0 + 1 * (-1) = -1
    ring
  have h3 : (⟨0, 0, -1⟩ : Vec3).length_squared = 1 := by
    show (0 : ℝ) * 0 + 0 * 0 + (-1) * (-1) = 1
    ring
  have h4 : (⟨0, 0, 1⟩ : Vec3).length_squared = 1 := by
    show (0 : ℝ) * 0 + 0 * 0 + 1 * 1 = 1
    ring
  simp only [hit_sphere, h1, h2, h3, h4]
  norm_num

/-- Scenario A surface normal: the unit normal at the hit point is
(0, 0, 1). -/
theorem normal_scenario_a :
    unit_vector ((⟨⟨0, 0, 0⟩, ⟨0, 0, -1⟩⟩ : Ray).at 0.5 - ⟨0, 0, -1⟩) =
      ⟨0, 0, 1⟩ := by
  have h1 : (⟨⟨0, 0, 0⟩, ⟨0, 0, -1⟩⟩ : Ray).at 0.5 - (⟨0, 0, -1⟩ : Vec3) =
      ⟨0, 0, 0.5⟩ := by
    show (⟨0, 0, 0⟩ : Vec3) + (0.5 : ℝ) • (⟨0, 0, -1⟩ : Vec3) -
        (⟨0, 0, -1⟩ : Vec3) = ⟨0, 0, 0.5⟩
    ext <;> norm_num
  rw [h1]
  unfold Vec3.unit_vector Vec3.length
  have h2 : (⟨0, 0, 0.5⟩ : Vec3).length_squared = 0.25 := by
    show (0 : ℝ) * 0 + 0 * 0 + 0.5 * 0.5 = 0.25
    norm_num
  rw [h2]
  have h3 : Real.sqrt 0.25 = 0.5 := by
    rw [show (0.25 : ℝ) = 0.5 ^ 2 by norm_num, Real.sqrt_sq (by norm_num)]
  rw [h3]
  ext <;> norm_num [Vec3.divScalar]

/-- Scenario A shading: the shaded color is (1/2, 1/2, 1). -/
theorem color_scenario_a :
    ray_color ⟨⟨0, 0, 0⟩, ⟨0, 0, -1⟩⟩ = ⟨0.5, 0.5, 1⟩ := by
  simp only [ray_color]
  rw [hit_sphere_scenario_a]
  rw [if_pos (by norm_num : (0.5 : ℝ) > 0)]
  rw [normal_scenario_a]
  ext <;> norm_num

/-- Claim theorem C7 (amended): at Scenario A's ray the hit parameter is
0.5 and the normal is (0,0,1) as claimed, but the shaded color is
(0.5, 0.5, 1), the normal-visualization value — not (1,1,1). -/
theorem scenario_a_exact :
    hit_sphere ⟨0, 0, -1⟩ 0.5 ⟨⟨0, 0, 0⟩, ⟨0, 0, -1⟩⟩ = 0.5 ∧
    unit_vector ((⟨⟨0, 0, 0⟩, ⟨0, 0, -1⟩⟩ : Ray).at 0.5 - ⟨0, 0, -1⟩) =
      ⟨0, 0, 1⟩ ∧
    ray_color ⟨⟨0, 0, 0⟩, ⟨0, 0, -1⟩⟩ = ⟨0.5, 0.5, 1⟩ :=
  ⟨hit_sphere_scenario_a, normal_scenario_a, color_scenario_a⟩

/-- Counterexample for C7 as stated: the shaded color at Scenario A's ray
is not (1,1,1). -/
theorem scenario_a_color_not_white :
    ray_color ⟨⟨0, 0, 0⟩, ⟨0, 0, -1⟩⟩ ≠ ⟨1, 1, 1⟩ := by
  rw [color_scenario_a]
  intro h
  exact absurd (congrArg Vec3.x h) (by norm_num)

/-! Translation equivariance of `move`. -/

/-- Claim theorem C10: on any reachable camera, `move(offset)` keeps yaw,
pitch, the basis vectors and the pixel deltas, translates `pixel00_loc_`
by exactly the offset, and hence `get_ray` afterwards returns the same
direction from an origin translated by the offset. -/
theorem move_translation_equivariant (c : Camera) (h : Reached c)
    (offset : Vec3) (px py : ℤ) :
    (c.move offset).yaw_ = c.yaw_ ∧
    (c.move offset).pitch_ = c.pitch_ ∧
    (c.move offset).front_ = c.front_ ∧
    (c.move offset).camera_right_ = c.camera_right_ ∧
    (c.move offset).camera_up_ = c.camera_up_ ∧
    (c.move offset).pixel_delta_u_ = c.pixel_delta_u_ ∧
    (c.move offset).pixel_delta_v_ = c.pixel_delta_v_ ∧
    (c.move offset).pixel00_loc_ = c.pixel00_loc_ + offset ∧
    ((c.move offset).get_ray px py).direction = (c.get_ray px py).direction ∧
    ((c.move offset).get_ray px py).origin =
      (c.get_ray px py).origin + offset := by
  have hfix := (reached_inv h).2.2.2
  have hfront : (c.move offset).front_ = c.front_ := by
    have e : (c.move offset).front_ = c.update_camera_vectors.front_ := rfl
    rw [e, hfix]
  have hright : (c.move offset).camera_right_ = c.camera_right_ := by
    have e : (c.move offset).camera_right_ =
        c.update_camera_vectors.camera_right_ := rfl
    rw [e, hfix]
  have hupv : (c.move offset).camera_up_ = c.camera_up_ := by
    have e : (c.move offset).camera_up_ =
        c.update_camera_vectors.camera_up_ := rfl
    rw [e, hfix]
  have hdu : (c.move offset).pixel_delta_u_ = c.pixel_delta_u_ := by
    have e : (c.move offset).pixel_delta_u_ =
        c.update_camera_vectors.pixel_delta_u_ := rfl
    rw [e, hfix]
  have hdv : (c.move offset).pixel_delta_v_ = c.pixel_delta_v_ := by
    have e : (c.move offset).pixel_delta_v_ =
        c.update_camera_vectors.pixel_delta_v_ := rfl
    rw [e, hfix]
  have hp00 : (c.move offset).pixel00_loc_ = c.pixel00_loc_ + offset := by
    have e : (c.move offset).pixel00_loc_ =
        c.update_camera_vectors.pixel00_loc_ - c.camera_center_ +
          (c.camera_center_ + offset) :=
      update_overwrite_center_pixel00 c (c.camera_center_ + offset)
    rw [hfix] at e
    rw [e]
    ext <;> simp <;> ring
  have hdir : ((c.move offset).get_ray px py).direction =
      (c.get_ray px py).direction := by
    have d1 : ((c.move offset).get_ray px py).direction =
        (c.move offset).pixel00_loc_ + (px : ℝ) • (c.move offset).pixel_delta_u_ +
          (py : ℝ) • (c.move offset).pixel_delta_v_ -
          (c.move offset).camera_center_ := rfl
    have d2 : (c.get_ray px py).direction =
        c.pixel00_loc_ + (px : ℝ) • c.pixel_delta_u_ +
          (py : ℝ) • c.pixel_delta_v_ - c.camera_center_ := rfl
    rw [d1, d2, hp00, hdu, hdv, move_center]
    ext <;> simp <;> ring
  have horig : ((c.move offset).get_ray px py).origin =
      (c.get_ray px py).origin + offset := move_center c offset
  exact ⟨rfl, rfl, hfront, hright, hupv, hdu, hdv, hp00, hdir, horig⟩

/-- Witness for C10 at the freshly constructed camera, offset (1,2,3),
pixel (2,3). -/
theorem move_translation_equivariant_witness :
    Reached (Camera.construct 1280 720 ⟨0, 0, 0⟩ 1) ∧
    (((Camera.construct 1280 720 ⟨0, 0, 0⟩ 1).move ⟨1, 2, 3⟩).yaw_ =
        (Camera.construct 1280 720 ⟨0, 0, 0⟩ 1).yaw_ ∧
      ((Camera.construct 1280 720 ⟨0, 0, 0⟩ 1).move ⟨1, 2, 3⟩).pitch_ =
        (Camera.construct 1280 720 ⟨0, 0, 0⟩ 1).pitch_ ∧
      ((Camera.construct 1280 720 ⟨0, 0, 0⟩ 1).move ⟨1, 2, 3⟩).front_ =
        (Camera.construct 1280 720 ⟨0, 0, 0⟩ 1).front_ ∧
      ((Camera.construct 1280 720 ⟨0, 0, 0⟩ 1).move ⟨1, 2, 3⟩).camera_right_ =
        (Camera.construct 1280 720 ⟨0, 0, 0⟩ 1).camera_right_ ∧
      ((Camera.construct 1280 720 ⟨0, 0, 0⟩ 1).move ⟨1, 2, 3⟩).camera_up_ =
        (Camera.construct 1280 720 ⟨0, 0, 0⟩ 1).camera_up_ ∧
      ((Camera.construct 1280 720 ⟨0, 0, 0⟩ 1).move ⟨1, 2, 3⟩).pixel_delta_u_ =
        (Camera.construct 1280 720 ⟨0, 0, 0⟩ 1).pixel_delta_u_ ∧
      ((Camera.construct 1280 720 ⟨0, 0, 0⟩ 1).move ⟨1, 2, 3⟩).pixel_delta_v_ =
        (Camera.construct 1280 720 ⟨0, 0, 0⟩ 1).pixel_delta_v_ ∧
      ((Camera.construct 1280 720 ⟨0, 0, 0⟩ 1).move ⟨1, 2, 3⟩).pixel00_loc_ =
        (Camera.construct 1280 720 ⟨0, 0, 0⟩ 1).pixel00_loc_ + ⟨1, 2, 3⟩ ∧
      (((Camera.construct 1280 720 ⟨0, 0, 0⟩ 1).move ⟨1, 2, 3⟩).get_ray 2 3).direction =
        ((Camera.construct 1280 720 ⟨0, 0, 0⟩ 1).get_ray 2 3).direction ∧
      (((Camera.construct 1280 720 ⟨0, 0, 0⟩ 1).move ⟨1, 2, 3⟩).get_ray 2 3).origin =
        ((Camera.construct 1280 720 ⟨0, 0, 0⟩ 1).get_ray 2 3).origin + ⟨1, 2, 3⟩) :=
  ⟨Reached.construct 1280 720 ⟨0, 0, 0⟩ 1,
    move_translation_equivariant _ (Reached.construct 1280 720 ⟨0, 0, 0⟩ 1)
      ⟨1, 2, 3⟩ 2 3⟩

/-- Witness for C3 at Scenario A's input (discriminant 1 > 0). -/
theorem hit_sphere_near_root_witness :
    ((⟨⟨0, 0, 0⟩, ⟨0, 0, -1⟩⟩ : Ray).direction ≠ ⟨0, 0, 0⟩) ∧
    ((2 * dot ((⟨⟨0, 0, 0⟩, ⟨0, 0, -1⟩⟩ : Ray).origin - ⟨0, 0, -1⟩)
          (⟨⟨0, 0, 0⟩, ⟨0, 0, -1⟩⟩ : Ray).direction) *
        (2 * dot ((⟨⟨0, 0, 0⟩, ⟨0, 0, -1⟩⟩ : Ray).origin - ⟨0, 0, -1⟩)
          (⟨⟨0, 0, 0⟩, ⟨0, 0, -1⟩⟩ : Ray).direction) -
        4 * (⟨⟨0, 0, 0⟩, ⟨0, 0, -1⟩⟩ : Ray).direction.length_squared *
          (((⟨⟨0, 0, 0⟩, ⟨0, 0, -1⟩⟩ : Ray).origin - ⟨0, 0, -1⟩).length_squared -
            (0.5 : ℝ) * 0.5) ≥ 0) ∧
    hit_sphere ⟨0, 0, -1⟩ 0.5 ⟨⟨0, 0, 0⟩, ⟨0, 0, -1⟩⟩ =
      (-(2 * dot ((⟨⟨0, 0, 0⟩, ⟨0, 0, -1⟩⟩ : Ray).origin - ⟨0, 0, -1⟩)
          (⟨⟨0, 0, 0⟩, ⟨0, 0, -1⟩⟩ : Ray).direction) -
        Real.sqrt ((2 * dot ((⟨⟨0, 0, 0⟩, ⟨0, 0, -1⟩⟩ : Ray).origin - ⟨0, 0, -1⟩)
            (⟨⟨0, 0, 0⟩, ⟨0, 0, -1⟩⟩ : Ray).direction) *
          (2 * dot ((⟨⟨0, 0, 0⟩, ⟨0, 0, -1⟩⟩ : Ray).origin - ⟨0, 0, -1⟩)
            (⟨⟨0, 0, 0⟩, ⟨0, 0, -1⟩⟩ : Ray).direction) -
          4 * (⟨⟨0, 0, 0⟩, ⟨0, 0, -1⟩⟩ : Ray).direction.length_squared *
            (((⟨⟨0, 0, 0⟩, ⟨0, 0, -1⟩⟩ : Ray).origin -
              ⟨0, 0, -1⟩).length_squared - (0.5 : ℝ) * 0.5))) /
        (2 * (⟨⟨0, 0, 0⟩, ⟨0, 0, -1⟩⟩ : Ray).direction.length_squared) := by
  have hdir : (⟨⟨0, 0, 0⟩, ⟨0, 0, -1⟩⟩ : Ray).direction ≠ (⟨0, 0, 0⟩ : Vec3) := by
    intro h
    exact absurd (congrArg Vec3.z h) (by norm_num)
  have hd : dot ((⟨⟨0, 0, 0⟩, ⟨0, 0, -1⟩⟩ : Ray).origin - ⟨0, 0, -1⟩)
      (⟨⟨0, 0, 0⟩, ⟨0, 0, -1⟩⟩ : Ray).direction = -1 := by
    show (0 - 0 : ℝ) * 0 + (0 - 0 : ℝ) * 0 + (0 - (-1) : ℝ) * (-1) = -1
    ring
  have hl1 : ((⟨⟨0, 0, 0⟩, ⟨0, 0, -1⟩⟩ : Ray).origin -
      (⟨0, 0, -1⟩ : Vec3)).length_squared = 1 := by
    show (0 - 0 : ℝ) * (0 - 0) + (0 - 0 : ℝ) * (0 - 0) +
        (0 - (-1) : ℝ) * (0 - (-1)) = 1
    ring
  have hl2 : ((⟨⟨0, 0, 0⟩, ⟨0, 0, -1⟩⟩ : Ray).direction).length_squared = 1 := by
    show (0 : ℝ) * 0 + 0 * 0 + (-1) * (-1) = 1
    ring
  refine ⟨hdir, ?_, (hit_sphere_near_root ⟨0, 0, -1⟩ 0.5 ⟨⟨0, 0, 0⟩, ⟨0, 0, -1⟩⟩ hdir).2.1 ?_⟩
  · rw [hd, hl1, hl2]
    norm_num
  · rw [hd, hl1, hl2]
    norm_num

/-- Witness for C5 at the freshly constructed camera and the genuinely
new position (1,0,0). -/
theorem set_position_overwrites_center_only_witness :
    (((Camera.construct 1280 720 ⟨0, 0, 0⟩ 1).set_position ⟨1, 0, 0⟩).camera_center_ =
        ⟨1, 0, 0⟩ ∧
      ((Camera.construct 1280 720 ⟨0, 0, 0⟩ 1).set_position ⟨1, 0, 0⟩).yaw_ =
        (Camera.construct 1280 720 ⟨0, 0, 0⟩ 1).yaw_ ∧
      ((Camera.construct 1280 720 ⟨0, 0, 0⟩ 1).set_position ⟨1, 0, 0⟩).pitch_ =
        (Camera.construct 1280 720 ⟨0, 0, 0⟩ 1).pitch_ ∧
      ((Camera.construct 1280 720 ⟨0, 0, 0⟩ 1).set_position ⟨1, 0, 0⟩).front_ =
        (Camera.construct 1280 720 ⟨0, 0, 0⟩ 1).front_ ∧
      ((Camera.construct 1280 720 ⟨0, 0, 0⟩ 1).set_position ⟨1, 0, 0⟩).camera_right_ =
        (Camera.construct 1280 720 ⟨0, 0, 0⟩ 1).camera_right_ ∧
      ((Camera.construct 1280 720 ⟨0, 0, 0⟩ 1).set_position ⟨1, 0, 0⟩).camera_up_ =
        (Camera.construct 1280 720 ⟨0, 0, 0⟩ 1).camera_up_ ∧
      ((Camera.construct 1280 720 ⟨0, 0, 0⟩ 1).set_position ⟨1, 0, 0⟩).pixel_delta_u_ =
        (Camera.construct 1280 720 ⟨0, 0, 0⟩ 1).pixel_delta_u_ ∧
      ((Camera.construct 1280 720 ⟨0, 0, 0⟩ 1).set_position ⟨1, 0, 0⟩).pixel_delta_v_ =
        (Camera.construct 1280 720 ⟨0, 0, 0⟩ 1).pixel_delta_v_ ∧
      ((Camera.construct 1280 720 ⟨0, 0, 0⟩ 1).set_position ⟨1, 0, 0⟩).pixel00_loc_ =
        (Camera.construct 1280 720 ⟨0, 0, 0⟩ 1).pixel00_loc_) ∧
    Reached (Camera.construct 1280 720 ⟨0, 0, 0⟩ 1) ∧
    (⟨1, 0, 0⟩ : Vec3) ≠ (Camera.construct 1280 720 ⟨0, 0, 0⟩ 1).camera_center_ ∧
    ((Camera.construct 1280 720 ⟨0, 0, 0⟩ 1).set_position ⟨1, 0, 0⟩).pixel00_loc_ ≠
      ((Camera.construct 1280 720 ⟨0, 0, 0⟩ 1).set_position
        ⟨1, 0, 0⟩).update_camera_vectors.pixel00_loc_ := by
  have hr : Reached (Camera.construct 1280 720 ⟨0, 0, 0⟩ 1) :=
    Reached.construct 1280 720 ⟨0, 0, 0⟩ 1
  have hne : (⟨1, 0, 0⟩ : Vec3) ≠
      (Camera.construct 1280 720 ⟨0, 0, 0⟩ 1).camera_center_ := by
    intro h
    have h2 : (⟨1, 0, 0⟩ : Vec3) = (⟨0, 0, 0⟩ : Vec3) := h
    exact absurd (congrArg Vec3.x h2) (by norm_num)
  exact ⟨(set_position_overwrites_center_only
      (Camera.construct 1280 720 ⟨0, 0, 0⟩ 1) ⟨1, 0, 0⟩).1, hr, hne,
    (set_position_overwrites_center_only
      (Camera.construct 1280 720 ⟨0, 0, 0⟩ 1) ⟨1, 0, 0⟩).2 hr hne⟩

/-- Witness for C9 at the over-range channel value 2. -/
theorem quantize_channel_spec_witness :
    (quantize_channel 2 = ⌊(256 : ℝ) * min (max 2 0) 0.999⌋ ∧
      0 ≤ quantize_channel 2 ∧ quantize_channel 2 ≤ 255 ∧
      quantize_channel 2 ≠ 256) ∧
    (1 : ℝ) ≤ 2 ∧ quantize_channel 2 = 255 :=
  ⟨⟨(quantize_channel_spec 2).1, (quantize_channel_spec 2).2.1,
      (quantize_channel_spec 2).2.2.1, (quantize_channel_spec 2).2.2.2.1⟩,
    by norm_num, (quantize_channel_spec 2).2.2.2.2 (by norm_num)⟩

end RayTracer
